import Mathlib

/-!
Verification development for a single-file Flask signaling server
(random video chat, SSE-based).  The in-memory state of `src/app.py`
(`waiting_id`, `rooms`, `peer_of`, `room_of`, `message_queues`) is embedded
as a Lean record of association lists, and every HTTP handler
(`/register`, `/find`, `/signal`, `/next`, `/leave`, `/events`) is embedded
as a pure state transformer.  Fresh identifiers (`uuid.uuid4()`) are passed
in as explicit parameters.  Python dict semantics (insertion order, key
update in place, `pop` with default) are mirrored by the `alookup` /
`aupdate` / `aerase` operations below, and Python truthiness of the string
and optional-string values involved is modelled by explicit `= ""` /
`Option` tests.
-/

namespace RandomChat

/-- Association-list lookup, mirroring Python `dict.get`: first matching key. -/
def alookup {α : Type} (k : String) : List (String × α) → Option α
  | [] => none
  | kv :: t => if kv.1 = k then some kv.2 else alookup k t

/-- Association-list update, mirroring Python `d[k] = v`: replace the value at
an existing key in place, otherwise append the new binding at the end. -/
def aupdate {α : Type} (k : String) (v : α) : List (String × α) → List (String × α)
  | [] => [(k, v)]
  | kv :: t => if kv.1 = k then (k, v) :: t else kv :: aupdate k v t

/-- Association-list deletion, mirroring Python `d.pop(k, None)`. -/
def aerase {α : Type} (k : String) : List (String × α) → List (String × α)
  | [] => []
  | kv :: t => if kv.1 = k then aerase k t else kv :: aerase k t

/-- Membership test, mirroring Python `k in d`. -/
def acontains {α : Type} (k : String) (l : List (String × α)) : Bool :=
  (alookup k l).isSome

/-- The opaque JSON blob relayed by `/signal` (`request.json.get('payload')`):
`None`, a string, or a flat object of string fields; the server never
inspects it, it is only stored and forwarded unchanged. -/
inductive SigPayload where
  | jnull
  | jstr (s : String)
  | jobj (fields : List (String × String))
deriving DecidableEq, Repr

/-- The `data` dict of each event the server ever enqueues
(`matched`, `status`, `signal`, `peer-left`), with the fields the code puts
into each dict literal. -/
inductive EventData where
  | statusD (msg : String)
  | matchedD (room role peer : String)
  | peerLeftD
  | signalD (src typ : String) (payload : SigPayload)
deriving DecidableEq, Repr

/-- One queued item `{"event": event, "data": data}` as built by `_enqueue`. -/
structure Event where
  event : String
  data : EventData
deriving DecidableEq, Repr

/-- The whole in-memory state of the server: the module-level globals
`waiting_id`, `rooms`, `peer_of`, `room_of`, `message_queues` of `app.py`. -/
structure ServerState where
  waiting_id : Option String
  rooms : List (String × List (String × String))
  peer_of : List (String × String)
  room_of : List (String × String)
  message_queues : List (String × List Event)
deriving DecidableEq, Repr

/-- The state at process start: every global empty, nobody waiting. -/
def initState : ServerState :=
  { waiting_id := none, rooms := [], peer_of := [], room_of := [], message_queues := [] }

/-- `_ensure_queue(cid)`: create the client's queue if it does not exist. -/
def _ensure_queue (cid : String) (s : ServerState) : ServerState :=
  match alookup cid s.message_queues with
  | some _ => s
  | none => { s with message_queues := s.message_queues ++ [(cid, [])] }

/-- `_enqueue(cid, event, data)`: append an event to the client's queue,
silently dropping it when the client has no queue. -/
def _enqueue (cid : String) (ev : String) (d : EventData) (s : ServerState) : ServerState :=
  match alookup cid s.message_queues with
  | none => s
  | some q => { s with message_queues := aupdate cid (q ++ [⟨ev, d⟩]) s.message_queues }

/-- Python `for k, v in list(members.items()): if v == cid: del members[k]`:
drop every binding whose value is `cid`, keeping order. -/
def dropMember (cid : String) : List (String × String) → List (String × String)
  | [] => []
  | kv :: t => if kv.2 = cid then dropMember cid t else kv :: dropMember cid t

/-- `_leave_current_room(cid, notify_peer)`: remove a client from its room and
optionally notify its peer.  Mirrors the source line by line, including the
Python truthiness test `if not rid` (absent key or empty-string room id both
fall into the waiting-slot branch, though only an absent key leaves `room_of`
untouched) and `if other` (an empty-string peer value is not popped back nor
notified). -/
def _leave_current_room (cid : String) (notify_peer : Bool) (s : ServerState) : ServerState :=
  match alookup cid s.room_of with
  | none =>
      if s.waiting_id = some cid then { s with waiting_id := none } else s
  | some rid =>
      let s1 : ServerState := { s with room_of := aerase cid s.room_of }
      if rid = "" then
        (if s1.waiting_id = some cid then { s1 with waiting_id := none } else s1)
      else
        let otherOpt := alookup cid s1.peer_of
        let s2 : ServerState := { s1 with peer_of := aerase cid s1.peer_of }
        let s3 : ServerState :=
          match otherOpt with
          | some o => if o = "" then s2 else { s2 with peer_of := aerase o s2.peer_of }
          | none => s2
        let ms : List (String × String) := (alookup rid s3.rooms).getD []
        let ms2 := dropMember cid ms
        let s4 : ServerState := { s3 with rooms := aupdate rid ms2 s3.rooms }
        let s5 : ServerState :=
          match otherOpt with
          | some o => if notify_peer ∧ o ≠ "" then _enqueue o "peer-left" EventData.peerLeftD s4 else s4
          | none => s4
        if ms2 = [] then { s5 with rooms := aerase rid s5.rooms } else s5

/-- `/register`: mint a fresh client id (the fresh uuid is the parameter) and
create its queue. -/
def register (cid : String) (s : ServerState) : String × ServerState :=
  (cid, _ensure_queue cid s)

/-- Result of `/find` (and `/next`): HTTP 400 on a missing id, otherwise the
JSON body status field. -/
inductive FindResult where
  | missingId
  | waiting
  | matched (room : String)
deriving DecidableEq, Repr

/-- The implicit-leave prefix of `/find`: `if cid in room_of:
_leave_current_room(cid)`. -/
def findPre (cid : String) (s : ServerState) : ServerState :=
  if acontains cid s.room_of then _leave_current_room cid false s else s

/-- `/find`: leave the current room implicitly if any (`findPre`), then either
pair with a distinct truthy waiting client (fresh room id `rid` is the
parameter) or become the waiting client. -/
def find_partner (cid rid : String) (s : ServerState) : FindResult × ServerState :=
  if cid = "" then (FindResult.missingId, s)
  else
    match (findPre cid s).waiting_id with
    | some other =>
        if other = "" ∨ other = cid then
          (FindResult.waiting,
            _enqueue cid "status" (EventData.statusD "Searching for a partner…")
              { findPre cid s with waiting_id := some cid })
        else
          (FindResult.matched rid,
            _enqueue cid "matched" (EventData.matchedD rid "callee" other)
              (_enqueue other "matched" (EventData.matchedD rid "caller" cid)
                { waiting_id := none,
                  rooms := aupdate rid [("a", other), ("b", cid)] (findPre cid s).rooms,
                  peer_of := aupdate cid other (aupdate other cid (findPre cid s).peer_of),
                  room_of := aupdate cid rid (aupdate other rid (findPre cid s).room_of),
                  message_queues := (findPre cid s).message_queues }))
    | none =>
        (FindResult.waiting,
          _enqueue cid "status" (EventData.statusD "Searching for a partner…")
            { findPre cid s with waiting_id := some cid })

/-- Result of `/signal`: HTTP 400 on missing fields, HTTP 404 when the
recipient has no queue, else ok. -/
inductive SignalResult where
  | missingFields
  | peerNotFound
  | ok
deriving DecidableEq, Repr

/-- `/signal`: forward `{from, type, payload}` to the recipient's queue.  The
guard is Python `if not all([cid, to, typ])`; the payload is never checked and
no peer-index check is performed. -/
def signal (cid toId typ : String) (payload : SigPayload) (s : ServerState) :
    SignalResult × ServerState :=
  if cid = "" ∨ toId = "" ∨ typ = "" then (SignalResult.missingFields, s)
  else if acontains toId s.message_queues then
    (SignalResult.ok, _enqueue toId "signal" (EventData.signalD cid typ payload) s)
  else (SignalResult.peerNotFound, s)

/-- `/next`: leave with peer notification, then re-run `/find` for the same id. -/
def next_partner (cid rid : String) (s : ServerState) : FindResult × ServerState :=
  if cid = "" then (FindResult.missingId, s)
  else find_partner cid rid (_leave_current_room cid true s)

/-- Result of `/leave`. -/
inductive LeaveResult where
  | missingId
  | ok
deriving DecidableEq, Repr

/-- `/leave`: leave with peer notification, then tell the leaver itself. -/
def leave (cid : String) (s : ServerState) : LeaveResult × ServerState :=
  if cid = "" then (LeaveResult.missingId, s)
  else
    let s1 := _leave_current_room cid true s
    (LeaveResult.ok, _enqueue cid "status" (EventData.statusD "Left the chat.") s1)

/-- Result of `/events` (Subscribe). -/
inductive EventsResult where
  | missingId
  | stream
deriving DecidableEq, Repr

/-- `/events` (Subscribe): the state-relevant prefix of the handler — reject a
missing id, otherwise `_ensure_queue(cid)` and hand the queue to the SSE
generator. -/
def events (cid : String) (s : ServerState) : EventsResult × ServerState :=
  if cid = "" then (EventsResult.missingId, s)
  else (EventsResult.stream, _ensure_queue cid s)

/-- A sequence of `/signal` calls from one sender to one recipient, each with
a message type and payload. -/
def signalMany (cid toId : String) (msgs : List (String × SigPayload)) (s : ServerState) :
    ServerState :=
  msgs.foldl (fun st m => (signal cid toId m.1 m.2 st).2) s

/-- The states the server can reach from process start: any interleaving of
handler calls with arbitrary client-supplied ids and payloads; the ids minted
by `uuid.uuid4()` (fresh client ids in `/register`, fresh room ids in `/find`
and `/next`) are nonempty and collision-free. -/
inductive Reachable : ServerState → Prop where
  | init : Reachable initState
  | register {s : ServerState} {cid : String} :
      Reachable s → cid ≠ "" → alookup cid s.message_queues = none →
      Reachable (register cid s).2
  | find {s : ServerState} {cid rid : String} :
      Reachable s → rid ≠ "" → alookup rid s.rooms = none →
      Reachable (find_partner cid rid s).2
  | next {s : ServerState} {cid rid : String} :
      Reachable s → rid ≠ "" → alookup rid s.rooms = none →
      Reachable (next_partner cid rid s).2
  | leave {s : ServerState} {cid : String} :
      Reachable s → Reachable (leave cid s).2
  | signal {s : ServerState} {cid toId typ : String} {payload : SigPayload} :
      Reachable s → Reachable (signal cid toId typ payload s).2
  | events {s : ServerState} {cid : String} :
      Reachable s → Reachable (events cid s).2

/-! ### Association-list lemmas -/

@[simp]
lemma alookup_aupdate {α : Type} (q k : String) (v : α) (l : List (String × α)) :
    alookup q (aupdate k v l) = if q = k then some v else alookup q l := by
  induction l with
  | nil =>
      by_cases h : q = k
      · subst h
        simp [aupdate, alookup]
      · have h2 : ¬ k = q := fun he => h he.symm
        simp [aupdate, alookup, h, h2]
  | cons kv t ih =>
      by_cases h : q = k
      · subst h
        by_cases hk : kv.1 = q
        · simp [aupdate, alookup, hk]
        · simp [aupdate, alookup, hk, ih]
      · have h2 : ¬ k = q := fun he => h he.symm
        by_cases hk : kv.1 = k
        · have hq : ¬ kv.1 = q := by
            rw [hk]
            exact h2
          simp [aupdate, alookup, hk, hq, h, h2]
        · by_cases hq : kv.1 = q
          · simp [aupdate, alookup, hk, hq, h]
          · simp [aupdate, alookup, hk, hq, ih, h]

@[simp]
lemma alookup_aerase {α : Type} (q k : String) (l : List (String × α)) :
    alookup q (aerase k l) = if q = k then none else alookup q l := by
  induction l with
  | nil => simp [aerase, alookup]
  | cons kv t ih =>
      by_cases h : q = k
      · subst h
        by_cases hk : kv.1 = q
        · simp [aerase, alookup, hk, ih]
        · simp [aerase, alookup, hk, ih]
      · have h2 : ¬ k = q := fun he => h he.symm
        by_cases hk : kv.1 = k
        · have hq : ¬ kv.1 = q := by
            rw [hk]
            exact h2
          simp [aerase, alookup, hk, hq, ih, h, h2]
        · by_cases hq : kv.1 = q
          · simp [aerase, alookup, hk, hq, h]
          · simp [aerase, alookup, hk, hq, ih, h]

lemma aerase_of_alookup_none {α : Type} (k : String) (l : List (String × α))
    (h : alookup k l = none) : aerase k l = l := by
  induction l with
  | nil => simp [aerase]
  | cons kv t ih =>
      by_cases hk : kv.1 = k
      · simp [alookup, hk] at h
      · simp [alookup, hk] at h
        simp [aerase, hk, ih h]

lemma acontains_eq_false {α : Type} (k : String) (l : List (String × α))
    (h : alookup k l = none) : acontains k l = false := by
  simp [acontains, h]

lemma acontains_eq_true {α : Type} (k : String) (l : List (String × α)) (v : α)
    (h : alookup k l = some v) : acontains k l = true := by
  simp [acontains, h]

lemma dropMember_ne (cid : String) (l : List (String × String)) :
    ∀ kv ∈ dropMember cid l, kv.2 ≠ cid := by
  induction l with
  | nil => intro kv h; simp [dropMember] at h
  | cons x t ih =>
      intro kv h
      by_cases hx : x.2 = cid
      · exact ih kv (by simpa [dropMember, hx] using h)
      · rw [dropMember] at h
        rw [if_neg hx] at h
        rcases List.mem_cons.mp h with h | h
        · subst h; exact hx
        · exact ih kv h

/-! ### Field-preservation lemmas for the queue helpers -/

@[simp]
lemma _enqueue_waiting (cid ev : String) (d : EventData) (s : ServerState) :
    (_enqueue cid ev d s).waiting_id = s.waiting_id := by
  unfold _enqueue
  cases alookup cid s.message_queues <;> rfl

@[simp]
lemma _enqueue_rooms (cid ev : String) (d : EventData) (s : ServerState) :
    (_enqueue cid ev d s).rooms = s.rooms := by
  unfold _enqueue
  cases alookup cid s.message_queues <;> rfl

@[simp]
lemma _enqueue_peer_of (cid ev : String) (d : EventData) (s : ServerState) :
    (_enqueue cid ev d s).peer_of = s.peer_of := by
  unfold _enqueue
  cases alookup cid s.message_queues <;> rfl

@[simp]
lemma _enqueue_room_of (cid ev : String) (d : EventData) (s : ServerState) :
    (_enqueue cid ev d s).room_of = s.room_of := by
  unfold _enqueue
  cases alookup cid s.message_queues <;> rfl

lemma alookup_enqueue_ne (x cid ev : String) (d : EventData) (s : ServerState)
    (hx : x ≠ cid) :
    alookup x (_enqueue cid ev d s).message_queues = alookup x s.message_queues := by
  unfold _enqueue
  cases alookup cid s.message_queues with
  | none => rfl
  | some q => simp [alookup_aupdate, hx]

lemma alookup_enqueue_self (cid ev : String) (d : EventData) (s : ServerState)
    (q : List Event) (hq : alookup cid s.message_queues = some q) :
    alookup cid (_enqueue cid ev d s).message_queues = some (q ++ [⟨ev, d⟩]) := by
  unfold _enqueue
  rw [hq]
  simp [alookup_aupdate]

lemma _enqueue_of_none (cid ev : String) (d : EventData) (s : ServerState)
    (h : alookup cid s.message_queues = none) : _enqueue cid ev d s = s := by
  unfold _enqueue
  rw [h]

lemma _ensure_queue_of_some (cid : String) (s : ServerState) (q : List Event)
    (h : alookup cid s.message_queues = some q) : _ensure_queue cid s = s := by
  unfold _ensure_queue
  rw [h]

lemma _ensure_queue_of_none (cid : String) (s : ServerState)
    (h : alookup cid s.message_queues = none) :
    _ensure_queue cid s = { s with message_queues := s.message_queues ++ [(cid, [])] } := by
  unfold _ensure_queue
  rw [h]

/-! ### Characterization lemmas for the handlers -/

lemma leave_room_none (cid : String) (np : Bool) (s : ServerState)
    (h : alookup cid s.room_of = none) :
    _leave_current_room cid np s =
      if s.waiting_id = some cid then { s with waiting_id := none } else s := by
  unfold _leave_current_room
  rw [h]

lemma leave_room_paired (cid other rid : String) (np : Bool) (s : ServerState)
    (hr : alookup cid s.room_of = some rid) (hrne : rid ≠ "")
    (hp : alookup cid s.peer_of = some other) (hone : other ≠ "") :
    _leave_current_room cid np s =
      (let ms2 := dropMember cid ((alookup rid s.rooms).getD [])
       let s4 : ServerState :=
         { waiting_id := s.waiting_id,
           rooms := aupdate rid ms2 s.rooms,
           peer_of := aerase other (aerase cid s.peer_of),
           room_of := aerase cid s.room_of,
           message_queues := s.message_queues }
       let s5 := if np then _enqueue other "peer-left" EventData.peerLeftD s4 else s4
       if ms2 = [] then { s5 with rooms := aerase rid s5.rooms } else s5) := by
  unfold _leave_current_room
  rw [hr]
  simp [hrne, hp, hone]

lemma leave_room_nopeer (cid rid : String) (np : Bool) (s : ServerState)
    (hr : alookup cid s.room_of = some rid) (hrne : rid ≠ "")
    (hp : alookup cid s.peer_of = none) :
    _leave_current_room cid np s =
      (let ms2 := dropMember cid ((alookup rid s.rooms).getD [])
       let s4 : ServerState :=
         { waiting_id := s.waiting_id,
           rooms := aupdate rid ms2 s.rooms,
           peer_of := aerase cid s.peer_of,
           room_of := aerase cid s.room_of,
           message_queues := s.message_queues }
       if ms2 = [] then { s4 with rooms := aerase rid s4.rooms } else s4) := by
  unfold _leave_current_room
  rw [hr]
  simp [hrne, hp]

lemma find_partner_wait (cid rid : String) (s : ServerState)
    (hc : cid ≠ "") (hr : alookup cid s.room_of = none)
    (hw : s.waiting_id = none ∨ s.waiting_id = some "" ∨ s.waiting_id = some cid) :
    find_partner cid rid s =
      (FindResult.waiting,
        _enqueue cid "status" (EventData.statusD "Searching for a partner…")
          { s with waiting_id := some cid }) := by
  unfold find_partner findPre
  rcases hw with h | h | h <;> simp [hc, acontains, hr, h]

lemma find_partner_match (cid rid other : String) (s : ServerState)
    (hc : cid ≠ "") (hr : alookup cid s.room_of = none)
    (hw : s.waiting_id = some other) (ho : other ≠ "") (hoc : other ≠ cid) :
    find_partner cid rid s =
      (FindResult.matched rid,
        _enqueue cid "matched" (EventData.matchedD rid "callee" other)
          (_enqueue other "matched" (EventData.matchedD rid "caller" cid)
            { waiting_id := none,
              rooms := aupdate rid [("a", other), ("b", cid)] s.rooms,
              peer_of := aupdate cid other (aupdate other cid s.peer_of),
              room_of := aupdate cid rid (aupdate other rid s.room_of),
              message_queues := s.message_queues })) := by
  unfold find_partner findPre
  simp [hc, acontains, hr, hw, ho, hoc]

lemma leave_room_peer_empty (cid rid : String) (np : Bool) (s : ServerState)
    (hr : alookup cid s.room_of = some rid) (hrne : rid ≠ "")
    (hp : alookup cid s.peer_of = some "") :
    _leave_current_room cid np s =
      (let ms2 := dropMember cid ((alookup rid s.rooms).getD [])
       let s4 : ServerState :=
         { waiting_id := s.waiting_id,
           rooms := aupdate rid ms2 s.rooms,
           peer_of := aerase cid s.peer_of,
           room_of := aerase cid s.room_of,
           message_queues := s.message_queues }
       if ms2 = [] then { s4 with rooms := aerase rid s4.rooms } else s4) := by
  unfold _leave_current_room
  rw [hr]
  simp [hrne, hp]

/-- After any `_leave_current_room cid`, `cid` has no room; and if `cid` could
only be waiting while roomless, it is no longer the waiting client either. -/
lemma leave_room_clears (cid : String) (np : Bool) (s : ServerState) :
    alookup cid (_leave_current_room cid np s).room_of = none ∧
    ((s.waiting_id = some cid → alookup cid s.room_of = none) →
      (_leave_current_room cid np s).waiting_id ≠ some cid) := by
  cases hr : alookup cid s.room_of with
  | none =>
      rw [leave_room_none cid np s hr]
      by_cases hw : s.waiting_id = some cid <;> simp [hw, hr]
  | some rid =>
      have hwne : (s.waiting_id = some cid → alookup cid s.room_of = none) →
          ¬ s.waiting_id = some cid := by
        intro h hw
        rw [h hw] at hr
        exact Option.noConfusion hr
      by_cases hrne : rid = ""
      · subst hrne
        unfold _leave_current_room
        rw [hr]
        by_cases hw : s.waiting_id = some cid <;> simp [hw]
      · cases hp : alookup cid s.peer_of with
        | none =>
            rw [leave_room_nopeer cid rid np s hr hrne hp]
            by_cases hms : dropMember cid ((alookup rid s.rooms).getD []) = [] <;>
              simp [hms]
        | some other =>
            by_cases hone : other = ""
            · subst hone
              rw [leave_room_peer_empty cid rid np s hr hrne hp]
              by_cases hms : dropMember cid ((alookup rid s.rooms).getD []) = [] <;>
                simp [hms]
            · rw [leave_room_paired cid other rid np s hr hrne hp hone]
              by_cases hms : dropMember cid ((alookup rid s.rooms).getD []) = [] <;>
                by_cases hnp : np <;>
                simp [hms, hnp]

/-! ### A concrete reachable trace: register two clients, pair them, one leaves -/

/-- State after `register` mints client `"a"`. -/
def sA : ServerState := (register "a" initState).2

/-- State after `register` mints client `"b"`. -/
def sAB : ServerState := (register "b" sA).2

/-- State after client `"a"` calls `/find` and becomes the waiting client. -/
def sWait : ServerState := (find_partner "a" "r0" sAB).2

/-- State after client `"b"` calls `/find` and is paired with `"a"` in room `"r"`. -/
def sPaired : ServerState := (find_partner "b" "r" sWait).2

/-- State after client `"a"` calls `/leave` from the pairing. -/
def sLeft : ServerState := (leave "a" sPaired).2

/-- State after client `"a"` calls `/leave` a second time in a row. -/
def sLeft2 : ServerState := (leave "a" sLeft).2

lemma sPaired_reachable : Reachable sPaired :=
  Reachable.find
    (Reachable.find
      (Reachable.register (Reachable.register Reachable.init (by decide) (by decide))
        (by decide) (by decide))
      (by decide) (by decide))
    (by decide) (by decide)

lemma sLeft_reachable : Reachable sLeft := Reachable.leave sPaired_reachable

/-! ### Claim C10: NextPartner is leaveRoom with notification followed by FindPartner -/

/-- C10: for every identity `cid` (identities are nonempty strings) and every
state, `/next` is literally `_leave_current_room(cid, notify_peer=True)`
followed by `find_partner(cid)`: the returned result and the entire resulting
state — hence the events enqueued to `cid` and to its former peer, including
the former peer's `peer-left` event — are identical in both formulations. -/
theorem next_eq_leave_then_find (cid rid : String) (s : ServerState) (hc : cid ≠ "") :
    next_partner cid rid s = find_partner cid rid (_leave_current_room cid true s) := by
  unfold next_partner
  simp [hc]

/-- Witness for `next_eq_leave_then_find` at a concrete paired state. -/
theorem next_eq_leave_then_find_witness :
    next_partner "a" "r2" sPaired = find_partner "a" "r2" (_leave_current_room "a" true sPaired) :=
  next_eq_leave_then_find "a" "r2" sPaired (by decide)

/-! ### Claim C2: there is no registration check -/

/-- C2 counterexample: identity `"x"` was never registered in the initial
state, yet FindPartner does not fail with UnknownIdentity — it returns
`waiting` and mutates the state, placing `"x"` in the WaitingSlot — and
Subscribe does not fail either — it returns the stream and creates an
OutboundChannel for `"x"`. -/
theorem no_unknown_identity_counterexample :
    (find_partner "x" "r" initState).1 = FindResult.waiting ∧
    (find_partner "x" "r" initState).2.waiting_id = some "x" ∧
    (events "x" initState).1 = EventsResult.stream ∧
    alookup "x" (events "x" initState).2.message_queues = some [] := by
  decide

/-- C2 amended: the code performs no registration check.  For an unregistered
nonempty identity (no queue) that is roomless while the slot is empty,
FindPartner succeeds with `waiting` and its only state change is placing the
identity in the WaitingSlot (the `status` event is silently dropped for lack
of a channel), and Subscribe succeeds, lazily creating a fresh empty channel. -/
theorem unregistered_id_accepted (cid rid : String) (s : ServerState)
    (hc : cid ≠ "") (hq : alookup cid s.message_queues = none)
    (hr : alookup cid s.room_of = none) (hw : s.waiting_id = none) :
    find_partner cid rid s = (FindResult.waiting, { s with waiting_id := some cid }) ∧
    events cid s =
      (EventsResult.stream, { s with message_queues := s.message_queues ++ [(cid, [])] }) := by
  constructor
  · rw [find_partner_wait cid rid s hc hr (Or.inl hw)]
    rw [_enqueue_of_none cid "status" (EventData.statusD "Searching for a partner…")
      { s with waiting_id := some cid } hq]
  · unfold events
    rw [if_neg hc, _ensure_queue_of_none cid s hq]

/-- Witness for `unregistered_id_accepted` at the concrete unregistered id `"y"`. -/
theorem unregistered_id_accepted_witness :
    find_partner "y" "r" initState = (FindResult.waiting, { initState with waiting_id := some "y" }) ∧
    events "y" initState =
      (EventsResult.stream,
        { initState with message_queues := initState.message_queues ++ [("y", [])] }) :=
  unregistered_id_accepted "y" "r" initState (by decide) (by decide) (by decide) (by decide)

/-! ### Claim C6: relay semantics -/

/-- C6: a `/signal` call with nonempty `from`, `to` and `kind` fails with the
not-found error exactly when `to` has no OutboundChannel, and on failure the
state is untouched; otherwise it succeeds and its only effect is to append the
single event `signal {from, type, payload}` — payload passed through
unchanged — to `to`'s channel.  No hypothesis about the Peer Index is needed:
the endpoint never checks that `from` and `to` are partners. -/
theorem relay_semantics (cid toId typ : String) (p : SigPayload) (s : ServerState)
    (hc : cid ≠ "") (ht : toId ≠ "") (hy : typ ≠ "") :
    (alookup toId s.message_queues = none →
        signal cid toId typ p s = (SignalResult.peerNotFound, s)) ∧
    (∀ q, alookup toId s.message_queues = some q →
        signal cid toId typ p s =
          (SignalResult.ok,
            { s with message_queues := aupdate toId (q ++ [⟨"signal", EventData.signalD cid typ p⟩]) s.message_queues })) := by
  constructor
  · intro h
    unfold signal
    simp [hc, ht, hy, acontains, h]
  · intro q h
    unfold signal _enqueue
    simp [hc, ht, hy, acontains, h]

/-- Witness for `relay_semantics`: a concrete offer relayed between the two
registered clients. -/
theorem relay_semantics_witness :
    signal "a" "b" "offer" (SigPayload.jobj [("sdp", "x")]) sAB =
      (SignalResult.ok,
        { sAB with message_queues := aupdate "b" ([] ++ [⟨"signal", EventData.signalD "a" "offer" (SigPayload.jobj [("sdp", "x")])⟩]) sAB.message_queues }) :=
  (relay_semantics "a" "b" "offer" (SigPayload.jobj [("sdp", "x")]) sAB
    (by decide) (by decide) (by decide)).2 [] (by decide)

/-! ### Claim C7: no self-pairing -/

/-- C7: if `cid` already occupies the WaitingSlot (and, as the slot invariant
guarantees, is roomless), a further FindPartner call by `cid` returns
`waiting`, keeps `cid` in the WaitingSlot, leaves rooms and both indexes
untouched (so no room pairing `cid` with itself is ever created), and appends
one `status` event to `cid`'s channel. -/
theorem no_self_pairing (cid rid : String) (s : ServerState) (q : List Event)
    (hc : cid ≠ "") (hw : s.waiting_id = some cid) (hr : alookup cid s.room_of = none)
    (hq : alookup cid s.message_queues = some q) :
    find_partner cid rid s =
      (FindResult.waiting,
        { s with waiting_id := some cid,
                 message_queues := aupdate cid (q ++ [⟨"status", EventData.statusD "Searching for a partner…"⟩]) s.message_queues }) := by
  rw [find_partner_wait cid rid s hc hr (Or.inr (Or.inr hw))]
  unfold _enqueue
  simp [hq]

/-- Witness for `no_self_pairing`: client `"a"` re-requests a match while
already waiting. -/
theorem no_self_pairing_witness :
    find_partner "a" "r9" sWait =
      (FindResult.waiting,
        { sWait with waiting_id := some "a",
                     message_queues := aupdate "a" ([⟨"status", EventData.statusD "Searching for a partner…"⟩] ++ [⟨"status", EventData.statusD "Searching for a partner…"⟩]) sWait.message_queues }) :=
  no_self_pairing "a" "r9" sWait [⟨"status", EventData.statusD "Searching for a partner…"⟩]
    (by decide) (by decide) (by decide) (by decide)

/-! ### Claim C8: relay delivery is order-preserving per recipient -/

/-- C8: for every sequence of `/signal` calls from `cid` to `toId` (each with a
nonempty message type), given that `toId` has a channel holding `q` and no
other event is interleaved, every call succeeds and afterwards `toId`'s
channel holds `q` followed by the corresponding `signal` events in exactly the
order in which the calls were made. -/
theorem relay_order_preserving (cid toId : String) (hc : cid ≠ "") (ht : toId ≠ "") :
    ∀ (msgs : List (String × SigPayload)) (s : ServerState) (q : List Event),
      (∀ m ∈ msgs, m.1 ≠ "") → alookup toId s.message_queues = some q →
      alookup toId (signalMany cid toId msgs s).message_queues =
        some (q ++ msgs.map (fun m => ⟨"signal", EventData.signalD cid m.1 m.2⟩)) := by
  intro msgs
  induction msgs with
  | nil =>
      intro s q _ hq
      simpa [signalMany] using hq
  | cons m rest ih =>
      intro s q hm hq
      have hm1 : m.1 ≠ "" := hm m (List.mem_cons_self m rest)
      have hstep : (signal cid toId m.1 m.2 s).2 =
          { s with message_queues := aupdate toId (q ++ [⟨"signal", EventData.signalD cid m.1 m.2⟩]) s.message_queues } := by
        unfold signal _enqueue
        simp [hc, ht, hm1, acontains, hq]
      have hq2 : alookup toId (signal cid toId m.1 m.2 s).2.message_queues =
          some (q ++ [⟨"signal", EventData.signalD cid m.1 m.2⟩]) := by
        rw [hstep]
        simp
      have hrec := ih (signal cid toId m.1 m.2 s).2
        (q ++ [⟨"signal", EventData.signalD cid m.1 m.2⟩])
        (fun x hx => hm x (List.mem_cons_of_mem m hx)) hq2
      have hfold : signalMany cid toId (m :: rest) s =
          signalMany cid toId rest (signal cid toId m.1 m.2 s).2 := rfl
      rw [hfold, hrec]
      simp

/-- Witness for `relay_order_preserving`: two relays from `"a"` to `"b"` in the
paired state arrive in order after the `matched` event. -/
theorem relay_order_preserving_witness :
    alookup "b" (signalMany "a" "b" [("offer", SigPayload.jobj [("sdp", "x")]), ("candidate", SigPayload.jnull)] sPaired).message_queues =
      some ([⟨"matched", EventData.matchedD "r" "callee" "a"⟩] ++
        [("offer", SigPayload.jobj [("sdp", "x")]), ("candidate", SigPayload.jnull)].map
          (fun m => ⟨"signal", EventData.signalD "a" m.1 m.2⟩)) :=
  relay_order_preserving "a" "b" (by decide) (by decide)
    [("offer", SigPayload.jobj [("sdp", "x")]), ("candidate", SigPayload.jnull)]
    sPaired [⟨"matched", EventData.matchedD "r" "callee" "a"⟩]
    (by decide) (by decide)

/-! ### Claim C5: peer notification on Leave/Next -/

/-- Core effects of `_leave_current_room A true` in a paired state, seen from
the peer `B`: exactly one `peer-left` appended to `B`'s queue, no other queue
touched, both Peer Index directions gone, only `A` dropped from the Room
Index, the waiting slot untouched, and the room `rid` (if it survives) listing
no member `A`. -/
lemma leave_true_paired_core (A B rid : String) (s : ServerState) (qb : List Event)
    (hB : B ≠ "")
    (hrA : alookup A s.room_of = some rid) (hrne : rid ≠ "")
    (hpA : alookup A s.peer_of = some B)
    (hqB : alookup B s.message_queues = some qb) :
    alookup B (_leave_current_room A true s).message_queues =
      some (qb ++ [⟨"peer-left", EventData.peerLeftD⟩]) ∧
    (∀ x, x ≠ B → alookup x (_leave_current_room A true s).message_queues =
      alookup x s.message_queues) ∧
    (_leave_current_room A true s).peer_of = aerase B (aerase A s.peer_of) ∧
    (_leave_current_room A true s).room_of = aerase A s.room_of ∧
    (_leave_current_room A true s).waiting_id = s.waiting_id ∧
    (∀ ms, alookup rid (_leave_current_room A true s).rooms = some ms →
      ∀ kv ∈ ms, kv.2 ≠ A) := by
  rw [leave_room_paired A B rid true s hrA hrne hpA hB]
  by_cases hms : dropMember A ((alookup rid s.rooms).getD []) = []
  · refine ⟨?_, ?_, ?_, ?_, ?_, ?_⟩
    · simp [hms, _enqueue, hqB]
    · intro x hx
      simp [hms, _enqueue, hqB, hx]
    · simp [hms, _enqueue, hqB]
    · simp [hms, _enqueue, hqB]
    · simp [hms, _enqueue, hqB]
    · intro ms h
      simp [hms, _enqueue, hqB] at h
  · refine ⟨?_, ?_, ?_, ?_, ?_, ?_⟩
    · simp [hms, _enqueue, hqB]
    · intro x hx
      simp [hms, _enqueue, hqB, hx]
    · simp [hms, _enqueue, hqB]
    · simp [hms, _enqueue, hqB]
    · simp [hms, _enqueue, hqB]
    · intro ms h
      simp [hms, _enqueue, hqB] at h
      intro kv hkv
      rw [← h] at hkv
      exact dropMember_ne A _ kv hkv

/-- C5: if `A` and `B` are paired (shared room `rid`, mutual Peer Index) and
`A` calls Leave — or Next, in any state where `B` itself does not occupy the
WaitingSlot and the freshly minted room id `rid2` differs from `rid` (uuid
freshness) — then exactly one `peer-left` event is appended to `B`'s channel,
`B` no longer has any Peer Index entry (in particular none referencing `A`),
and `B`'s Room Index still names `rid`, a room that no longer lists `A` as a
member.  This covers both Next outcomes: `A` re-entering the WaitingSlot, and
`A` immediately re-matching with a waiting third client. -/
theorem peer_notified_on_leave (A B rid rid2 : String) (s : ServerState) (qb : List Event)
    (hA : A ≠ "") (hB : B ≠ "") (hAB : B ≠ A)
    (hrA : alookup A s.room_of = some rid) (hrne : rid ≠ "")
    (hpA : alookup A s.peer_of = some B)
    (hrB : alookup B s.room_of = some rid)
    (hqB : alookup B s.message_queues = some qb)
    (hwB : s.waiting_id ≠ some B) (hr2 : rid2 ≠ rid) :
    (alookup B (leave A s).2.message_queues = some (qb ++ [⟨"peer-left", EventData.peerLeftD⟩]) ∧
     alookup B (leave A s).2.peer_of = none ∧
     alookup B (leave A s).2.room_of = some rid ∧
     (∀ ms, alookup rid (leave A s).2.rooms = some ms → ∀ kv ∈ ms, kv.2 ≠ A)) ∧
    (alookup B (next_partner A rid2 s).2.message_queues =
       some (qb ++ [⟨"peer-left", EventData.peerLeftD⟩]) ∧
     alookup B (next_partner A rid2 s).2.peer_of = none ∧
     alookup B (next_partner A rid2 s).2.room_of = some rid ∧
     (∀ ms, alookup rid (next_partner A rid2 s).2.rooms = some ms → ∀ kv ∈ ms, kv.2 ≠ A)) := by
  obtain ⟨h1, h2, h3, h4, h5, h6⟩ := leave_true_paired_core A B rid s qb hB hrA hrne hpA hqB
  have hZroom : alookup A (_leave_current_room A true s).room_of = none := by
    rw [h4]
    simp
  constructor
  · have hL : (leave A s).2 =
        _enqueue A "status" (EventData.statusD "Left the chat.") (_leave_current_room A true s) := by
      unfold leave
      rw [if_neg hA]
    rw [hL]
    refine ⟨?_, ?_, ?_, ?_⟩
    · rw [alookup_enqueue_ne B A _ _ _ hAB]
      exact h1
    · rw [_enqueue_peer_of, h3]
      simp
    · rw [_enqueue_room_of, h4]
      simp [hAB, hrB]
    · rw [_enqueue_rooms]
      exact h6
  · have hNP : (next_partner A rid2 s).2 =
        (find_partner A rid2 (_leave_current_room A true s)).2 := by
      unfold next_partner
      rw [if_neg hA]
    have hW1 : alookup B (_enqueue A "status" (EventData.statusD "Searching for a partner…")
        { _leave_current_room A true s with waiting_id := some A }).message_queues =
        some (qb ++ [⟨"peer-left", EventData.peerLeftD⟩]) := by
      rw [alookup_enqueue_ne B A _ _ _ hAB]
      show alookup B (_leave_current_room A true s).message_queues = _
      exact h1
    have hW2 : alookup B (_enqueue A "status" (EventData.statusD "Searching for a partner…")
        { _leave_current_room A true s with waiting_id := some A }).peer_of = none := by
      rw [_enqueue_peer_of]
      show alookup B (_leave_current_room A true s).peer_of = none
      rw [h3]
      simp
    have hW3 : alookup B (_enqueue A "status" (EventData.statusD "Searching for a partner…")
        { _leave_current_room A true s with waiting_id := some A }).room_of = some rid := by
      rw [_enqueue_room_of]
      show alookup B (_leave_current_room A true s).room_of = some rid
      rw [h4]
      simp [hAB, hrB]
    have hW4 : ∀ ms, alookup rid (_enqueue A "status"
        (EventData.statusD "Searching for a partner…")
        { _leave_current_room A true s with waiting_id := some A }).rooms = some ms →
        ∀ kv ∈ ms, kv.2 ≠ A := by
      rw [_enqueue_rooms]
      intro ms hmseq
      exact h6 ms hmseq
    rcases hwo : (_leave_current_room A true s).waiting_id with _ | w
    · have hff : (find_partner A rid2 (_leave_current_room A true s)).2 =
          _enqueue A "status" (EventData.statusD "Searching for a partner…")
            { _leave_current_room A true s with waiting_id := some A } := by
        rw [find_partner_wait A rid2 (_leave_current_room A true s) hA hZroom (Or.inl hwo)]
      rw [hNP, hff]
      exact ⟨hW1, hW2, hW3, hW4⟩
    · by_cases hge : w = ""
      · have hff : (find_partner A rid2 (_leave_current_room A true s)).2 =
            _enqueue A "status" (EventData.statusD "Searching for a partner…")
              { _leave_current_room A true s with waiting_id := some A } := by
          rw [find_partner_wait A rid2 (_leave_current_room A true s) hA hZroom
            (Or.inr (Or.inl (by rw [hwo, hge])))]
        rw [hNP, hff]
        exact ⟨hW1, hW2, hW3, hW4⟩
      · by_cases hgA : w = A
        · have hff : (find_partner A rid2 (_leave_current_room A true s)).2 =
              _enqueue A "status" (EventData.statusD "Searching for a partner…")
                { _leave_current_room A true s with waiting_id := some A } := by
            rw [find_partner_wait A rid2 (_leave_current_room A true s) hA hZroom
              (Or.inr (Or.inr (by rw [hwo, hgA])))]
          rw [hNP, hff]
          exact ⟨hW1, hW2, hW3, hW4⟩
        · have hwBne : w ≠ B := by
            intro he
            rw [he] at hwo
            rw [h5] at hwo
            exact hwB hwo
          have hBw : B ≠ w := fun he => hwBne he.symm
          have hff : (find_partner A rid2 (_leave_current_room A true s)).2 =
              _enqueue A "matched" (EventData.matchedD rid2 "callee" w)
                (_enqueue w "matched" (EventData.matchedD rid2 "caller" A)
                  { waiting_id := none,
                    rooms := aupdate rid2 [("a", w), ("b", A)] (_leave_current_room A true s).rooms,
                    peer_of := aupdate A w (aupdate w A (_leave_current_room A true s).peer_of),
                    room_of := aupdate A rid2 (aupdate w rid2 (_leave_current_room A true s).room_of),
                    message_queues := (_leave_current_room A true s).message_queues }) := by
            rw [find_partner_match A rid2 w (_leave_current_room A true s) hA hZroom hwo hge hgA]
          rw [hNP, hff]
          refine ⟨?_, ?_, ?_, ?_⟩
          · rw [alookup_enqueue_ne B A _ _ _ hAB, alookup_enqueue_ne B w _ _ _ hBw]
            show alookup B (_leave_current_room A true s).message_queues = _
            exact h1
          · rw [_enqueue_peer_of, _enqueue_peer_of]
            show alookup B (aupdate A w (aupdate w A (_leave_current_room A true s).peer_of)) = none
            rw [alookup_aupdate, if_neg hAB, alookup_aupdate, if_neg hBw, h3]
            simp
          · rw [_enqueue_room_of, _enqueue_room_of]
            show alookup B
              (aupdate A rid2 (aupdate w rid2 (_leave_current_room A true s).room_of)) = some rid
            rw [alookup_aupdate, if_neg hAB, alookup_aupdate, if_neg hBw, h4, alookup_aerase,
              if_neg hAB]
            exact hrB
          · rw [_enqueue_rooms, _enqueue_rooms]
            intro ms hms
            have hms1 : alookup rid (aupdate rid2 [("a", w), ("b", A)]
                (_leave_current_room A true s).rooms) = some ms := hms
            rw [alookup_aupdate, if_neg (fun he => hr2 he.symm)] at hms1
            exact h6 ms hms1

/-- Witness for `peer_notified_on_leave` at the concrete paired state. -/
theorem peer_notified_on_leave_witness :
    (alookup "b" (leave "a" sPaired).2.message_queues =
       some ([⟨"matched", EventData.matchedD "r" "callee" "a"⟩] ++ [⟨"peer-left", EventData.peerLeftD⟩]) ∧
     alookup "b" (leave "a" sPaired).2.peer_of = none ∧
     alookup "b" (leave "a" sPaired).2.room_of = some "r" ∧
     (∀ ms, alookup "r" (leave "a" sPaired).2.rooms = some ms → ∀ kv ∈ ms, kv.2 ≠ "a")) ∧
    (alookup "b" (next_partner "a" "r2" sPaired).2.message_queues =
       some ([⟨"matched", EventData.matchedD "r" "callee" "a"⟩] ++ [⟨"peer-left", EventData.peerLeftD⟩]) ∧
     alookup "b" (next_partner "a" "r2" sPaired).2.peer_of = none ∧
     alookup "b" (next_partner "a" "r2" sPaired).2.room_of = some "r" ∧
     (∀ ms, alookup "r" (next_partner "a" "r2" sPaired).2.rooms = some ms → ∀ kv ∈ ms, kv.2 ≠ "a")) :=
  peer_notified_on_leave "a" "b" "r" "r2" sPaired
    [⟨"matched", EventData.matchedD "r" "callee" "a"⟩]
    (by decide) (by decide) (by decide) (by decide) (by decide) (by decide) (by decide)
    (by decide) (by decide) (by decide)

/-! ### Claim C1: what really happens to the Room Store when a member leaves -/

/-- C1 counterexample: after the reachable trace `register a; register b;
find a; find b (room r); leave a`, the Room Store still contains room `"r"`
with exactly one live member (`"b"`), and the surviving peer `"b"` still has a
Room Index entry pointing at `"r"` — the room record and the survivor's index
entry were not removed by the leave operation. -/
theorem one_member_room_counterexample :
    Reachable sLeft ∧
    alookup "r" sLeft.rooms = some [("b", "b")] ∧
    alookup "b" sLeft.room_of = some "r" ∧
    alookup "b" sLeft.peer_of = none :=
  ⟨sLeft_reachable, by decide, by decide, by decide⟩

/-- C1 amended: when a member `A` of a room leaves (directly or implicitly),
both directions of the Peer Index and `A`'s own Room Index entry are removed,
and `A` is dropped from the room's member set; but if another member remains,
the room record survives in the Room Store holding only the remaining member,
and the survivor `B` keeps its Room Index entry for that room (the record is
deleted only once its member set becomes empty). -/
theorem leave_keeps_one_member_room (A B rid : String) (np : Bool) (s : ServerState)
    (hB : B ≠ "") (hAB : B ≠ A)
    (hrA : alookup A s.room_of = some rid) (hrne : rid ≠ "")
    (hpA : alookup A s.peer_of = some B)
    (hrB : alookup B s.room_of = some rid)
    (hms : dropMember A ((alookup rid s.rooms).getD []) ≠ []) :
    alookup rid (_leave_current_room A np s).rooms =
      some (dropMember A ((alookup rid s.rooms).getD [])) ∧
    alookup B (_leave_current_room A np s).room_of = some rid ∧
    alookup A (_leave_current_room A np s).room_of = none ∧
    alookup A (_leave_current_room A np s).peer_of = none ∧
    alookup B (_leave_current_room A np s).peer_of = none := by
  rw [leave_room_paired A B rid np s hrA hrne hpA hB]
  by_cases hnp : np <;> refine ⟨?_, ?_, ?_, ?_, ?_⟩ <;>
    simp [hms, hnp, hAB, hrB]

/-- Witness for `leave_keeps_one_member_room` at the concrete paired state. -/
theorem leave_keeps_one_member_room_witness :
    alookup "r" (_leave_current_room "a" true sPaired).rooms =
      some (dropMember "a" ((alookup "r" sPaired.rooms).getD [])) ∧
    alookup "b" (_leave_current_room "a" true sPaired).room_of = some "r" ∧
    alookup "a" (_leave_current_room "a" true sPaired).room_of = none ∧
    alookup "a" (_leave_current_room "a" true sPaired).peer_of = none ∧
    alookup "b" (_leave_current_room "a" true sPaired).peer_of = none :=
  leave_keeps_one_member_room "a" "b" "r" true sPaired
    (by decide) (by decide) (by decide) (by decide) (by decide) (by decide) (by decide)

/-! ### Claim C4: what idempotence of Leave really looks like -/

/-- C4 counterexample: calling `/leave` for `"a"` twice in a row from the
paired state yields no error the second time, but the second call does not
leave the state unchanged — it appends a second `status "Left the chat."`
event to `"a"`'s own channel. -/
theorem second_leave_changes_state_counterexample :
    (leave "a" sLeft).1 = LeaveResult.ok ∧
    (leave "a" sLeft).2 ≠ sLeft ∧
    alookup "a" (leave "a" sLeft).2.message_queues =
      some [⟨"status", EventData.statusD "Searching for a partner…"⟩,
            ⟨"matched", EventData.matchedD "r" "caller" "b"⟩,
            ⟨"status", EventData.statusD "Left the chat."⟩,
            ⟨"status", EventData.statusD "Left the chat."⟩] :=
  ⟨by decide, by decide, by decide⟩

/-- C4 amended: for every identity and every state satisfying the WaitingSlot
invariant (the slot occupant is roomless), a second `/leave` in a row yields
no error, leaves the WaitingSlot, the Room Store and both indexes unchanged,
and enqueues nothing to any other client — in particular no second
`peer-left` to a former peer; its only effect is one more `status` event on
the caller's own channel. -/
lemma leave_eq (cid : String) (s : ServerState) (hc : cid ≠ "") :
    leave cid s =
      (LeaveResult.ok,
        _enqueue cid "status" (EventData.statusD "Left the chat.") (_leave_current_room cid true s)) := by
  unfold leave
  rw [if_neg hc]

theorem leave_idempotent_up_to_self_status (cid : String) (s : ServerState)
    (hc : cid ≠ "")
    (hwf : s.waiting_id = some cid → alookup cid s.room_of = none) :
    (leave cid (leave cid s).2).1 = LeaveResult.ok ∧
    (leave cid (leave cid s).2).2.waiting_id = (leave cid s).2.waiting_id ∧
    (leave cid (leave cid s).2).2.rooms = (leave cid s).2.rooms ∧
    (leave cid (leave cid s).2).2.peer_of = (leave cid s).2.peer_of ∧
    (leave cid (leave cid s).2).2.room_of = (leave cid s).2.room_of ∧
    (∀ x, x ≠ cid → alookup x (leave cid (leave cid s).2).2.message_queues =
      alookup x (leave cid s).2.message_queues) := by
  obtain ⟨hA, hW⟩ := leave_room_clears cid true s
  have hW2 := hW hwf
  have hL1 : (leave cid s).2 =
      _enqueue cid "status" (EventData.statusD "Left the chat.") (_leave_current_room cid true s) := by
    rw [leave_eq cid s hc]
  have hs1room : alookup cid (leave cid s).2.room_of = none := by
    rw [hL1, _enqueue_room_of]
    exact hA
  have hs1wait : ¬ (leave cid s).2.waiting_id = some cid := by
    rw [hL1, _enqueue_waiting]
    exact hW2
  have hleave2 : _leave_current_room cid true (leave cid s).2 = (leave cid s).2 := by
    rw [leave_room_none cid true (leave cid s).2 hs1room, if_neg hs1wait]
  have hL2 := leave_eq cid (leave cid s).2 hc
  rw [hleave2] at hL2
  rw [hL2]
  exact ⟨rfl, _enqueue_waiting _ _ _ _, _enqueue_rooms _ _ _ _, _enqueue_peer_of _ _ _ _,
    _enqueue_room_of _ _ _ _, fun x hx => alookup_enqueue_ne x cid _ _ _ hx⟩

/-- Witness for `leave_idempotent_up_to_self_status` at the concrete paired
state. -/
theorem leave_idempotent_up_to_self_status_witness :
    (leave "a" (leave "a" sPaired).2).1 = LeaveResult.ok ∧
    (leave "a" (leave "a" sPaired).2).2.waiting_id = (leave "a" sPaired).2.waiting_id ∧
    (leave "a" (leave "a" sPaired).2).2.rooms = (leave "a" sPaired).2.rooms ∧
    (leave "a" (leave "a" sPaired).2).2.peer_of = (leave "a" sPaired).2.peer_of ∧
    (leave "a" (leave "a" sPaired).2).2.room_of = (leave "a" sPaired).2.room_of ∧
    (∀ x, x ≠ "a" → alookup x (leave "a" (leave "a" sPaired).2).2.message_queues =
      alookup x (leave "a" sPaired).2.message_queues) :=
  leave_idempotent_up_to_self_status "a" sPaired (by decide) (by decide)

/-! ### Claim C3: deterministic pairing of two waiting clients -/

/-- C3: for two distinct registered identities `A`, `B`, both unpaired, with
an empty WaitingSlot: `A`'s FindPartner returns `waiting`; `B`'s subsequent
FindPartner returns `matched` with the fresh room id, clears the WaitingSlot,
creates the fresh room with `A` as caller (member `"a"`) and `B` as callee
(member `"b"`), sets Peer Index(A)=B and Peer Index(B)=A, points both Room
Index entries at the room, and appends to each client's channel one `matched`
event carrying the room id, the assigned role, and the peer identity. -/
theorem pairing_deterministic (A B rid r1 : String) (s : ServerState)
    (qa qb : List Event)
    (hA : A ≠ "") (hB : B ≠ "") (hAB : A ≠ B)
    (hw : s.waiting_id = none)
    (hrA : alookup A s.room_of = none) (hrB : alookup B s.room_of = none)
    (hqA : alookup A s.message_queues = some qa)
    (hqB : alookup B s.message_queues = some qb)
    (hfresh : alookup rid s.rooms = none) :
    (find_partner A r1 s).1 = FindResult.waiting ∧
    (find_partner B rid (find_partner A r1 s).2).1 = FindResult.matched rid ∧
    (find_partner B rid (find_partner A r1 s).2).2.waiting_id = none ∧
    alookup A (find_partner B rid (find_partner A r1 s).2).2.peer_of = some B ∧
    alookup B (find_partner B rid (find_partner A r1 s).2).2.peer_of = some A ∧
    alookup A (find_partner B rid (find_partner A r1 s).2).2.room_of = some rid ∧
    alookup B (find_partner B rid (find_partner A r1 s).2).2.room_of = some rid ∧
    alookup rid (find_partner B rid (find_partner A r1 s).2).2.rooms = some [("a", A), ("b", B)] ∧
    alookup A (find_partner B rid (find_partner A r1 s).2).2.message_queues =
      some (qa ++ [⟨"status", EventData.statusD "Searching for a partner…"⟩,
                   ⟨"matched", EventData.matchedD rid "caller" B⟩]) ∧
    alookup B (find_partner B rid (find_partner A r1 s).2).2.message_queues =
      some (qb ++ [⟨"matched", EventData.matchedD rid "callee" A⟩]) := by
  have hBA : B ≠ A := fun h => hAB h.symm
  have h1 := find_partner_wait A r1 s hA hrA (Or.inl hw)
  have hs1 : (find_partner A r1 s).2 =
      _enqueue A "status" (EventData.statusD "Searching for a partner…")
        { s with waiting_id := some A } := by
    rw [h1]
  have hs1wait : (find_partner A r1 s).2.waiting_id = some A := by
    rw [hs1, _enqueue_waiting]
  have hs1roomB : alookup B (find_partner A r1 s).2.room_of = none := by
    rw [hs1, _enqueue_room_of]
    exact hrB
  have hs1qA : alookup A (find_partner A r1 s).2.message_queues =
      some (qa ++ [⟨"status", EventData.statusD "Searching for a partner…"⟩]) := by
    rw [hs1]
    exact alookup_enqueue_self A "status" (EventData.statusD "Searching for a partner…")
      { s with waiting_id := some A } qa hqA
  have hs1qB : alookup B (find_partner A r1 s).2.message_queues = some qb := by
    rw [hs1, alookup_enqueue_ne B A _ _ _ hBA]
    exact hqB
  have h2 := find_partner_match B rid A (find_partner A r1 s).2 hB hs1roomB hs1wait hA hAB
  have h2fst : (find_partner B rid (find_partner A r1 s).2).1 = FindResult.matched rid := by
    rw [h2]
  have h2snd : (find_partner B rid (find_partner A r1 s).2).2 =
      _enqueue B "matched" (EventData.matchedD rid "callee" A)
        (_enqueue A "matched" (EventData.matchedD rid "caller" B)
          { waiting_id := none,
            rooms := aupdate rid [("a", A), ("b", B)] (find_partner A r1 s).2.rooms,
            peer_of := aupdate B A (aupdate A B (find_partner A r1 s).2.peer_of),
            room_of := aupdate B rid (aupdate A rid (find_partner A r1 s).2.room_of),
            message_queues := (find_partner A r1 s).2.message_queues }) := by
    rw [h2]
  refine ⟨by rw [h1], h2fst, ?_, ?_, ?_, ?_, ?_, ?_, ?_, ?_⟩ <;> rw [h2snd]
  · rw [_enqueue_waiting, _enqueue_waiting]
  · rw [_enqueue_peer_of, _enqueue_peer_of]
    simp [hAB]
  · rw [_enqueue_peer_of, _enqueue_peer_of]
    simp
  · rw [_enqueue_room_of, _enqueue_room_of]
    simp [hAB]
  · rw [_enqueue_room_of, _enqueue_room_of]
    simp
  · rw [_enqueue_rooms, _enqueue_rooms]
    simp
  · rw [alookup_enqueue_ne A B _ _ _ hAB,
      alookup_enqueue_self A "matched" (EventData.matchedD rid "caller" B)
        { waiting_id := none,
          rooms := aupdate rid [("a", A), ("b", B)] (find_partner A r1 s).2.rooms,
          peer_of := aupdate B A (aupdate A B (find_partner A r1 s).2.peer_of),
          room_of := aupdate B rid (aupdate A rid (find_partner A r1 s).2.room_of),
          message_queues := (find_partner A r1 s).2.message_queues }
        (qa ++ [⟨"status", EventData.statusD "Searching for a partner…"⟩]) hs1qA]
    simp
  · rw [alookup_enqueue_self B "matched" (EventData.matchedD rid "callee" A)
        (_enqueue A "matched" (EventData.matchedD rid "caller" B)
          { waiting_id := none,
            rooms := aupdate rid [("a", A), ("b", B)] (find_partner A r1 s).2.rooms,
            peer_of := aupdate B A (aupdate A B (find_partner A r1 s).2.peer_of),
            room_of := aupdate B rid (aupdate A rid (find_partner A r1 s).2.room_of),
            message_queues := (find_partner A r1 s).2.message_queues })
        qb (by rw [alookup_enqueue_ne B A _ _ _ hBA]; exact hs1qB)]

/-- Witness for `pairing_deterministic` on the two freshly registered clients. -/
theorem pairing_deterministic_witness :
    (find_partner "a" "r0" sAB).1 = FindResult.waiting ∧
    (find_partner "b" "r" (find_partner "a" "r0" sAB).2).1 = FindResult.matched "r" ∧
    (find_partner "b" "r" (find_partner "a" "r0" sAB).2).2.waiting_id = none ∧
    alookup "a" (find_partner "b" "r" (find_partner "a" "r0" sAB).2).2.peer_of = some "b" ∧
    alookup "b" (find_partner "b" "r" (find_partner "a" "r0" sAB).2).2.peer_of = some "a" ∧
    alookup "a" (find_partner "b" "r" (find_partner "a" "r0" sAB).2).2.room_of = some "r" ∧
    alookup "b" (find_partner "b" "r" (find_partner "a" "r0" sAB).2).2.room_of = some "r" ∧
    alookup "r" (find_partner "b" "r" (find_partner "a" "r0" sAB).2).2.rooms =
      some [("a", "a"), ("b", "b")] ∧
    alookup "a" (find_partner "b" "r" (find_partner "a" "r0" sAB).2).2.message_queues =
      some ([] ++ [⟨"status", EventData.statusD "Searching for a partner…"⟩,
                   ⟨"matched", EventData.matchedD "r" "caller" "b"⟩]) ∧
    alookup "b" (find_partner "b" "r" (find_partner "a" "r0" sAB).2).2.message_queues =
      some ([] ++ [⟨"matched", EventData.matchedD "r" "callee" "a"⟩]) :=
  pairing_deterministic "a" "b" "r" "r0" sAB [] []
    (by decide) (by decide) (by decide) (by decide) (by decide) (by decide)
    (by decide) (by decide) (by decide)

/-! ### Claim C9: Peer Index symmetry as a reachability invariant -/

/-- The Peer Index is symmetric. -/
def SymPeer (s : ServerState) : Prop :=
  ∀ a b, alookup a s.peer_of = some b → alookup b s.peer_of = some a

/-- Peer Index keys and values are nonempty (ids are truthy uuid strings). -/
def PeerNE (s : ServerState) : Prop :=
  ∀ a b, alookup a s.peer_of = some b → a ≠ "" ∧ b ≠ ""

/-- A client with no Room Index entry (an unpaired client) has no Peer Index
entry. -/
def PeerHasRoom (s : ServerState) : Prop :=
  ∀ a, alookup a s.room_of = none → alookup a s.peer_of = none

/-- Room Index values are nonempty (room ids are truthy uuid strings). -/
def RoomOfNE (s : ServerState) : Prop :=
  ∀ a r, alookup a s.room_of = some r → r ≠ ""

/-- The WaitingSlot occupant is in no room. -/
def WaitingFree (s : ServerState) : Prop :=
  ∀ w, s.waiting_id = some w → alookup w s.room_of = none

/-- The inductive invariant carried through every operation. -/
def Inv (s : ServerState) : Prop :=
  SymPeer s ∧ PeerNE s ∧ PeerHasRoom s ∧ RoomOfNE s ∧ WaitingFree s

lemma Inv_init : Inv initState := by
  refine ⟨?_, ?_, ?_, ?_, ?_⟩
  · intro a b hab
    simp [initState, alookup] at hab
  · intro a b hab
    simp [initState, alookup] at hab
  · intro a _
    simp [initState, alookup]
  · intro a r har
    simp [initState, alookup] at har
  · intro w hww
    simp [initState] at hww

lemma Inv_congr {t s : ServerState} (h : Inv s) (hw : t.waiting_id = s.waiting_id)
    (hp : t.peer_of = s.peer_of) (hr : t.room_of = s.room_of) : Inv t := by
  obtain ⟨h1, h2, h3, h4, h5⟩ := h
  refine ⟨?_, ?_, ?_, ?_, ?_⟩
  · intro a b hab
    rw [hp] at hab ⊢
    exact h1 a b hab
  · intro a b hab
    rw [hp] at hab
    exact h2 a b hab
  · intro a ha
    rw [hr] at ha
    rw [hp]
    exact h3 a ha
  · intro a r har
    rw [hr] at har
    exact h4 a r har
  · intro w hww
    rw [hw] at hww
    rw [hr]
    exact h5 w hww

lemma _ensure_queue_waiting (cid : String) (s : ServerState) :
    (_ensure_queue cid s).waiting_id = s.waiting_id := by
  unfold _ensure_queue
  cases alookup cid s.message_queues <;> rfl

lemma _ensure_queue_peer_of (cid : String) (s : ServerState) :
    (_ensure_queue cid s).peer_of = s.peer_of := by
  unfold _ensure_queue
  cases alookup cid s.message_queues <;> rfl

lemma _ensure_queue_room_of (cid : String) (s : ServerState) :
    (_ensure_queue cid s).room_of = s.room_of := by
  unfold _ensure_queue
  cases alookup cid s.message_queues <;> rfl

lemma Inv_enqueue {cid ev : String} {d : EventData} {s : ServerState} (h : Inv s) :
    Inv (_enqueue cid ev d s) :=
  Inv_congr h (_enqueue_waiting cid ev d s) (_enqueue_peer_of cid ev d s)
    (_enqueue_room_of cid ev d s)

lemma Inv_ensure {cid : String} {s : ServerState} (h : Inv s) : Inv (_ensure_queue cid s) :=
  Inv_congr h (_ensure_queue_waiting cid s) (_ensure_queue_peer_of cid s)
    (_ensure_queue_room_of cid s)

lemma leave_room_nopeer_fields (cid rid : String) (np : Bool) (s : ServerState)
    (hr : alookup cid s.room_of = some rid) (hrne : rid ≠ "")
    (hp : alookup cid s.peer_of = none) :
    (_leave_current_room cid np s).peer_of = aerase cid s.peer_of ∧
    (_leave_current_room cid np s).room_of = aerase cid s.room_of ∧
    (_leave_current_room cid np s).waiting_id = s.waiting_id := by
  rw [leave_room_nopeer cid rid np s hr hrne hp]
  by_cases hms : dropMember cid ((alookup rid s.rooms).getD []) = [] <;> simp [hms]

lemma leave_room_paired_fields (cid other rid : String) (np : Bool) (s : ServerState)
    (hr : alookup cid s.room_of = some rid) (hrne : rid ≠ "")
    (hp : alookup cid s.peer_of = some other) (hone : other ≠ "") :
    (_leave_current_room cid np s).peer_of = aerase other (aerase cid s.peer_of) ∧
    (_leave_current_room cid np s).room_of = aerase cid s.room_of ∧
    (_leave_current_room cid np s).waiting_id = s.waiting_id := by
  rw [leave_room_paired cid other rid np s hr hrne hp hone]
  by_cases hms : dropMember cid ((alookup rid s.rooms).getD []) = [] <;>
    by_cases hnp : np <;> simp [hms, hnp]

lemma Inv_room_pop {s t : ServerState} {cid : String} (h : Inv s)
    (hpnone : alookup cid s.peer_of = none)
    (hpt : t.peer_of = aerase cid s.peer_of)
    (hrt : t.room_of = aerase cid s.room_of)
    (hwt : t.waiting_id = s.waiting_id) : Inv t := by
  obtain ⟨h1, h2, h3, h4, h5⟩ := h
  have hperase : aerase cid s.peer_of = s.peer_of := aerase_of_alookup_none cid s.peer_of hpnone
  refine ⟨?_, ?_, ?_, ?_, ?_⟩
  · intro a b hab
    rw [hpt, hperase] at hab ⊢
    exact h1 a b hab
  · intro a b hab
    rw [hpt, hperase] at hab
    exact h2 a b hab
  · intro a ha
    rw [hrt, alookup_aerase] at ha
    rw [hpt, hperase]
    by_cases hac : a = cid
    · subst hac
      exact hpnone
    · rw [if_neg hac] at ha
      exact h3 a ha
  · intro a r har
    rw [hrt, alookup_aerase] at har
    by_cases hac : a = cid
    · rw [if_pos hac] at har
      exact Option.noConfusion har
    · rw [if_neg hac] at har
      exact h4 a r har
  · intro w hww
    rw [hwt] at hww
    rw [hrt, alookup_aerase]
    by_cases hwc : w = cid
    · rw [if_pos hwc]
    · rw [if_neg hwc]
      exact h5 w hww

lemma Inv_peer_pop {s t : ServerState} {cid other : String} (h : Inv s)
    (hp : alookup cid s.peer_of = some other)
    (hpt : t.peer_of = aerase other (aerase cid s.peer_of))
    (hrt : t.room_of = aerase cid s.room_of)
    (hwt : t.waiting_id = s.waiting_id) : Inv t := by
  obtain ⟨h1, h2, h3, h4, h5⟩ := h
  have hsym : alookup other s.peer_of = some cid := h1 cid other hp
  refine ⟨?_, ?_, ?_, ?_, ?_⟩
  · intro a b hab
    rw [hpt, alookup_aerase, alookup_aerase] at hab
    by_cases hao : a = other
    · rw [if_pos hao] at hab
      exact Option.noConfusion hab
    · rw [if_neg hao] at hab
      by_cases hac : a = cid
      · rw [if_pos hac] at hab
        exact Option.noConfusion hab
      · rw [if_neg hac] at hab
        have hba := h1 a b hab
        have hbc : ¬ b = cid := by
          intro he
          subst he
          rw [hba] at hp
          have := Option.some.inj hp
          exact hao this
        have hbo : ¬ b = other := by
          intro he
          subst he
          rw [hba] at hsym
          have := Option.some.inj hsym
          exact hac this
        rw [hpt, alookup_aerase, alookup_aerase, if_neg hbo, if_neg hbc]
        exact hba
  · intro a b hab
    rw [hpt, alookup_aerase, alookup_aerase] at hab
    by_cases hao : a = other
    · rw [if_pos hao] at hab
      exact Option.noConfusion hab
    · rw [if_neg hao] at hab
      by_cases hac : a = cid
      · rw [if_pos hac] at hab
        exact Option.noConfusion hab
      · rw [if_neg hac] at hab
        exact h2 a b hab
  · intro a ha
    rw [hrt, alookup_aerase] at ha
    rw [hpt, alookup_aerase, alookup_aerase]
    by_cases hao : a = other
    · rw [if_pos hao]
    · rw [if_neg hao]
      by_cases hac : a = cid
      · rw [if_pos hac]
      · rw [if_neg hac]
        rw [if_neg hac] at ha
        exact h3 a ha
  · intro a r har
    rw [hrt, alookup_aerase] at har
    by_cases hac : a = cid
    · rw [if_pos hac] at har
      exact Option.noConfusion har
    · rw [if_neg hac] at har
      exact h4 a r har
  · intro w hww
    rw [hwt] at hww
    rw [hrt, alookup_aerase]
    by_cases hwc : w = cid
    · rw [if_pos hwc]
    · rw [if_neg hwc]
      exact h5 w hww

lemma Inv_leave_room (cid : String) (np : Bool) (s : ServerState) (h : Inv s) :
    Inv (_leave_current_room cid np s) := by
  obtain ⟨h1, h2, h3, h4, h5⟩ := h
  cases hr : alookup cid s.room_of with
  | none =>
      rw [leave_room_none cid np s hr]
      by_cases hw : s.waiting_id = some cid
      · rw [if_pos hw]
        exact ⟨h1, h2, h3, h4, fun w hww => Option.noConfusion hww⟩
      · rw [if_neg hw]
        exact ⟨h1, h2, h3, h4, h5⟩
  | some rid =>
      by_cases hrne : rid = ""
      · subst hrne
        exact absurd rfl (h4 cid "" hr)
      · cases hp : alookup cid s.peer_of with
        | none =>
            obtain ⟨hpf, hrf, hwf⟩ := leave_room_nopeer_fields cid rid np s hr hrne hp
            exact Inv_room_pop ⟨h1, h2, h3, h4, h5⟩ hp hpf hrf hwf
        | some other =>
            have hone : other ≠ "" := (h2 cid other hp).2
            obtain ⟨hpf, hrf, hwf⟩ := leave_room_paired_fields cid other rid np s hr hrne hp hone
            exact Inv_peer_pop ⟨h1, h2, h3, h4, h5⟩ hp hpf hrf hwf

lemma leave_clears_peer (cid : String) (np : Bool) (s : ServerState) (h : Inv s) :
    alookup cid (_leave_current_room cid np s).peer_of = none := by
  obtain ⟨h1, h2, h3, h4, h5⟩ := h
  cases hr : alookup cid s.room_of with
  | none =>
      rw [leave_room_none cid np s hr]
      by_cases hw : s.waiting_id = some cid
      · rw [if_pos hw]
        exact h3 cid hr
      · rw [if_neg hw]
        exact h3 cid hr
  | some rid =>
      by_cases hrne : rid = ""
      · subst hrne
        exact absurd rfl (h4 cid "" hr)
      · cases hp : alookup cid s.peer_of with
        | none =>
            obtain ⟨hpf, _, _⟩ := leave_room_nopeer_fields cid rid np s hr hrne hp
            rw [hpf]
            simp
        | some other =>
            have hone : other ≠ "" := (h2 cid other hp).2
            obtain ⟨hpf, _, _⟩ := leave_room_paired_fields cid other rid np s hr hrne hp hone
            rw [hpf]
            simp

lemma Inv_set_waiting {s t : ServerState} {cid : String} (h : Inv s)
    (hroom : alookup cid s.room_of = none)
    (hpt : t.peer_of = s.peer_of) (hrt : t.room_of = s.room_of)
    (hwt : t.waiting_id = some cid) : Inv t := by
  obtain ⟨h1, h2, h3, h4, h5⟩ := h
  refine ⟨?_, ?_, ?_, ?_, ?_⟩
  · intro a b hab
    rw [hpt] at hab ⊢
    exact h1 a b hab
  · intro a b hab
    rw [hpt] at hab
    exact h2 a b hab
  · intro a ha
    rw [hrt] at ha
    rw [hpt]
    exact h3 a ha
  · intro a r har
    rw [hrt] at har
    exact h4 a r har
  · intro w hww
    rw [hwt] at hww
    have hwc : w = cid := (Option.some.inj hww).symm
    subst hwc
    rw [hrt]
    exact hroom

lemma Inv_pair {s t : ServerState} {cid other rid : String} (h : Inv s)
    (hc : cid ≠ "") (ho : other ≠ "") (hoc : other ≠ cid) (hrne : rid ≠ "")
    (hpc : alookup cid s.peer_of = none) (hpo : alookup other s.peer_of = none)
    (hpt : t.peer_of = aupdate cid other (aupdate other cid s.peer_of))
    (hrt : t.room_of = aupdate cid rid (aupdate other rid s.room_of))
    (hwt : t.waiting_id = none) : Inv t := by
  obtain ⟨h1, h2, h3, h4, h5⟩ := h
  refine ⟨?_, ?_, ?_, ?_, ?_⟩
  · intro a b hab
    rw [hpt, alookup_aupdate, alookup_aupdate] at hab
    rw [hpt, alookup_aupdate, alookup_aupdate]
    by_cases hac : a = cid
    · rw [if_pos hac] at hab
      have hb : other = b := Option.some.inj hab
      subst hb
      rw [if_neg hoc, if_pos rfl, hac]
    · rw [if_neg hac] at hab
      by_cases hao : a = other
      · rw [if_pos hao] at hab
        have hb : cid = b := Option.some.inj hab
        subst hb
        rw [if_pos rfl, hao]
      · rw [if_neg hao] at hab
        have hba := h1 a b hab
        have hbc : ¬ b = cid := by
          intro he
          subst he
          rw [hba] at hpc
          exact Option.noConfusion hpc
        have hbo : ¬ b = other := by
          intro he
          subst he
          rw [hba] at hpo
          exact Option.noConfusion hpo
        rw [if_neg hbc, if_neg hbo]
        exact hba
  · intro a b hab
    rw [hpt, alookup_aupdate, alookup_aupdate] at hab
    by_cases hac : a = cid
    · rw [if_pos hac] at hab
      have hb : other = b := Option.some.inj hab
      subst hb
      subst hac
      exact ⟨hc, ho⟩
    · rw [if_neg hac] at hab
      by_cases hao : a = other
      · rw [if_pos hao] at hab
        have hb : cid = b := Option.some.inj hab
        subst hb
        subst hao
        exact ⟨ho, hc⟩
      · rw [if_neg hao] at hab
        exact h2 a b hab
  · intro a ha
    rw [hrt, alookup_aupdate, alookup_aupdate] at ha
    rw [hpt, alookup_aupdate, alookup_aupdate]
    by_cases hac : a = cid
    · rw [if_pos hac] at ha
      exact Option.noConfusion ha
    · rw [if_neg hac] at ha
      by_cases hao : a = other
      · rw [if_pos hao] at ha
        exact Option.noConfusion ha
      · rw [if_neg hao] at ha
        rw [if_neg hac, if_neg hao]
        exact h3 a ha
  · intro a r har
    rw [hrt, alookup_aupdate, alookup_aupdate] at har
    by_cases hac : a = cid
    · rw [if_pos hac] at har
      have := Option.some.inj har
      subst this
      exact hrne
    · rw [if_neg hac] at har
      by_cases hao : a = other
      · rw [if_pos hao] at har
        have := Option.some.inj har
        subst this
        exact hrne
      · rw [if_neg hao] at har
        exact h4 a r har
  · intro w hww
    rw [hwt] at hww
    exact Option.noConfusion hww

lemma Inv_findPre (cid : String) (s : ServerState) (h : Inv s) :
    Inv (findPre cid s) ∧
    alookup cid (findPre cid s).room_of = none ∧
    alookup cid (findPre cid s).peer_of = none := by
  unfold findPre
  by_cases hb : acontains cid s.room_of
  · rw [if_pos hb]
    exact ⟨Inv_leave_room cid false s h, (leave_room_clears cid false s).1,
      leave_clears_peer cid false s h⟩
  · rw [if_neg hb]
    have hroom : alookup cid s.room_of = none := by
      unfold acontains at hb
      cases hl : alookup cid s.room_of with
      | none => rfl
      | some v =>
          rw [hl] at hb
          simp at hb
    exact ⟨h, hroom, h.2.2.1 cid hroom⟩

lemma Inv_find (cid rid : String) (s : ServerState) (hrne : rid ≠ "") (h : Inv s) :
    Inv (find_partner cid rid s).2 := by
  by_cases hc : cid = ""
  · unfold find_partner
    rw [if_pos hc]
    exact h
  · obtain ⟨hI1, hroom1, hpeer1⟩ := Inv_findPre cid s h
    unfold find_partner
    rw [if_neg hc]
    split
    · next other heq =>
        split
        · next =>
            exact Inv_enqueue (Inv_set_waiting hI1 hroom1 rfl rfl rfl)
        · next hg =>
            push_neg at hg
            have hroomo : alookup other (findPre cid s).room_of = none :=
              hI1.2.2.2.2 other heq
            have hpeero : alookup other (findPre cid s).peer_of = none :=
              hI1.2.2.1 other hroomo
            exact Inv_enqueue (Inv_enqueue
              (Inv_pair hI1 hc hg.1 hg.2 hrne hpeer1 hpeero rfl rfl rfl))
    · next =>
        exact Inv_enqueue (Inv_set_waiting hI1 hroom1 rfl rfl rfl)

lemma Inv_register (cid : String) (s : ServerState) (h : Inv s) :
    Inv (register cid s).2 :=
  Inv_ensure h

lemma Inv_events (cid : String) (s : ServerState) (h : Inv s) :
    Inv (events cid s).2 := by
  unfold events
  by_cases hc : cid = ""
  · rw [if_pos hc]
    exact h
  · rw [if_neg hc]
    exact Inv_ensure h

lemma Inv_signal (cid toId typ : String) (p : SigPayload) (s : ServerState) (h : Inv s) :
    Inv (signal cid toId typ p s).2 := by
  unfold signal
  by_cases hm : cid = "" ∨ toId = "" ∨ typ = ""
  · rw [if_pos hm]
    exact h
  · rw [if_neg hm]
    by_cases hq : acontains toId s.message_queues
    · rw [if_pos hq]
      exact Inv_enqueue h
    · rw [if_neg hq]
      exact h

lemma Inv_leave_ep (cid : String) (s : ServerState) (h : Inv s) :
    Inv (leave cid s).2 := by
  by_cases hc : cid = ""
  · unfold leave
    rw [if_pos hc]
    exact h
  · rw [leave_eq cid s hc]
    exact Inv_enqueue (Inv_leave_room cid true s h)

lemma Inv_next (cid rid : String) (s : ServerState) (hrne : rid ≠ "") (h : Inv s) :
    Inv (next_partner cid rid s).2 := by
  unfold next_partner
  by_cases hc : cid = ""
  · rw [if_pos hc]
    exact h
  · rw [if_neg hc]
    exact Inv_find cid rid (_leave_current_room cid true s) hrne
      (Inv_leave_room cid true s h)

lemma reachable_inv (s : ServerState) (h : Reachable s) : Inv s := by
  induction h with
  | init => exact Inv_init
  | register _ hc hq ih => exact Inv_register _ _ ih
  | find _ hrne hfresh ih => exact Inv_find _ _ _ hrne ih
  | next _ hrne hfresh ih => exact Inv_next _ _ _ hrne ih
  | leave _ ih => exact Inv_leave_ep _ _ ih
  | signal _ ih => exact Inv_signal _ _ _ _ _ ih
  | events _ ih => exact Inv_events _ _ ih

/-- C9: in every reachable state — reachability being closed under all
operations (Register, FindPartner, NextPartner, Leave, Relay, Subscribe) —
the Peer Index is symmetric: whenever it maps `a` to `b` it also maps `b` to
`a`; and an unpaired identity (one with no Room Index entry) has no Peer
Index entry. -/
theorem peer_index_symmetric (s : ServerState) (h : Reachable s) :
    (∀ a b, alookup a s.peer_of = some b → alookup b s.peer_of = some a) ∧
    (∀ a, alookup a s.room_of = none → alookup a s.peer_of = none) := by
  obtain ⟨h1, _, h3, _, _⟩ := reachable_inv s h
  exact ⟨h1, h3⟩

/-- Witness for `peer_index_symmetric`: in the concrete reachable paired
state, symmetry turns the entry `a ↦ b` into `b ↦ a`. -/
theorem peer_index_symmetric_witness :
    alookup "b" sPaired.peer_of = some "a" :=
  (peer_index_symmetric sPaired sPaired_reachable).1 "a" "b" (by decide)

end RandomChat
